import Mathlib

/-
Shallow embedding of the `toy_pool` crate (src/lib.rs, src/smpsc.rs).

Modelling conventions:
  * `Slot` is a transparent `u32` newtype in the source; we use `Nat` directly.
  * `Gen = NonZeroU32` and `RefCount = u16` become `Nat` with explicit
    `% 2^32` / `% 2^16` where the source's machine arithmetic can wrap
    (release-mode wraparound semantics).
  * A Rust panic (out-of-bounds `Vec` indexing, `assert!`, `expect`) is an
    outer `Option` `none`.
  * `smpsc` is a single shared FIFO backed by `Rc<RefCell<VecDeque>>`:
    every `Sender` clone and the `Receiver` alias one queue, so the pool
    carries a single `queue : List Message` with `send` appending at the
    back and `recv` popping the front.
  * `Handle` owns `(slot, gen, sender)`; the sender aliases the pool's
    queue, so the Lean `Handle` keeps just `(slot, gen)`.
-/

set_option maxRecDepth 4096

namespace ToyPool

/-- Modulus of the `RefCount = u16` arithmetic. -/
def refCountMod : Nat := 65536

/-- Modulus of the `Gen = NonZeroU32` arithmetic. -/
def genMod : Nat := 4294967296

/-- Reference counting message (`Message` in src/lib.rs: `New(Slot) | Drop(Slot)`). -/
inductive Message where
  | new : Nat → Message
  | drop : Nat → Message
deriving DecidableEq, Repr

/-- Owning index to an item (`Handle<T>` in src/lib.rs); the `sender` field is
the pool's shared queue, kept on the pool side of the model. -/
structure Handle where
  slot : Nat
  gen : Nat
deriving DecidableEq, Repr

/-- Non-owning index to an item (`WeakHandle<T>` in src/lib.rs). -/
structure WeakHandle where
  slot : Nat
  gen : Nat
deriving DecidableEq, Repr

/-- `Handle::downgrade` in src/lib.rs. -/
def Handle.downgrade (h : Handle) : WeakHandle :=
  { slot := h.slot, gen := h.gen }

/-- `PoolEntry<T>` in src/lib.rs: optional item, generation, reference count. -/
structure PoolEntry (T : Type) where
  data : Option T
  gen : Nat
  ref_count : Nat
deriving DecidableEq, Repr

/-- `Pool<T>` in src/lib.rs: the entry vector plus the single shared
message queue (`rx`/`tx` alias the same `VecDeque`). -/
structure Pool (T : Type) where
  entries : List (PoolEntry T)
  queue : List Message
deriving DecidableEq, Repr

/-- `Pool::find_empty_slot`: ascending scan for the first entry whose
item is absent. -/
def findEmptySlot {T : Type} : List (PoolEntry T) → Option Nat
  | [] => none
  | e :: rest =>
    if e.data.isNone then some 0
    else (findEmptySlot rest).map (· + 1)

/-- `Gen::new(g + 1)` on a `NonZeroU32`: the `u32` addition wraps mod `2^32`
and `NonZeroU32::new` rejects zero, which `Pool::add` turns into the
"Generation overflow!" panic (`none`). -/
def genSucc (g : Nat) : Option Nat :=
  let g2 := (g + 1) % genMod
  if g2 = 0 then none else some g2

/-- `Pool::add`: overwrite the first free entry in place (bumping that
entry's generation and leaving its `ref_count` untouched) or append a new
entry with generation 1 and `ref_count` 1; returns the new strong handle.
No message is sent. `none` is the generation-overflow panic. -/
def Pool.add {T : Type} (p : Pool T) (item : T) : Option (Pool T × Handle) :=
  match findEmptySlot p.entries with
  | some i =>
    match p.entries[i]? with
    | none => none
    | some e =>
      match genSucc e.gen with
      | none => none
      | some g =>
        some ({ p with entries :=
                  p.entries.set i { data := some item, gen := g, ref_count := e.ref_count } },
              { slot := i, gen := g })
  | none =>
    some ({ p with entries := p.entries ++ [{ data := some item, gen := 1, ref_count := 1 }] },
          { slot := p.entries.length, gen := 1 })

/-- `Pool::get` (weak-handle accessor): `&self.entries[weak.slot]` panics out
of bounds (outer `none`); otherwise the item when the generation matches. -/
def Pool.get {T : Type} (p : Pool T) (weak : WeakHandle) : Option (Option T) :=
  match p.entries[weak.slot]? with
  | none => none
  | some e => if e.gen = weak.gen then some e.data else some none

/-- `Pool::get_mut`: same access path as `Pool::get` (`as_mut` instead of
`as_ref`); modelled as the value read through the mutable reference. -/
def Pool.get_mut {T : Type} (p : Pool T) (weak : WeakHandle) : Option (Option T) :=
  match p.entries[weak.slot]? with
  | none => none
  | some e => if e.gen = weak.gen then some e.data else some none

/-- `impl Index<&Handle<T>> for Pool<T>`: indexes the entry vector (panic out
of bounds) and `expect`s the item (panic when absent); both panics are the
outer `none`. -/
def Pool.index {T : Type} (p : Pool T) (handle : Handle) : Option T :=
  match p.entries[handle.slot]? with
  | none => none
  | some e => e.data

/-- `impl IndexMut<&Handle<T>> for Pool<T>`: the same access path, modelled as
applying a mutation `f` through the returned `&mut T`. -/
def Pool.index_mut {T : Type} (p : Pool T) (handle : Handle) (f : T → T) : Option (Pool T) :=
  match p.entries[handle.slot]? with
  | none => none
  | some e =>
    match e.data with
    | none => none
    | some x =>
      some { p with entries := p.entries.set handle.slot { e with data := some (f x) } }

/-- `Pool::upgrade`: returns `None` when `slot > entries.len()` (note the
strict `>`: `slot == len` falls through to a panicking index, the outer
`none`), when the entry's reference count is zero, or when the generation
mismatches; otherwise a strong handle with the weak handle's slot and
generation. No message is sent. -/
def Pool.upgrade {T : Type} (p : Pool T) (weak : WeakHandle) : Option (Option Handle) :=
  if p.entries.length < weak.slot then some none
  else
    match p.entries[weak.slot]? with
    | none => none
    | some e =>
      if e.ref_count = 0 then some none
      else if e.gen = weak.gen then some (some { slot := weak.slot, gen := weak.gen })
      else some none

/-- `Pool::get_by_slot`: `entries.get` (no panic), then the item if present. -/
def Pool.get_by_slot {T : Type} (p : Pool T) (slot : Nat) : Option T :=
  match p.entries[slot]? with
  | none => none
  | some e => e.data

/-- `Pool::get2_mut_by_slot`: `assert_ne!(s0, s1)` (panic = outer `none`),
then checked lookups of both slots and both items; inner `none` is the
function returning `None`. -/
def Pool.get2_mut_by_slot {T : Type} (p : Pool T) (s0 s1 : Nat) : Option (Option (T × T)) :=
  if s0 = s1 then none
  else
    match p.entries[s0]? with
    | none => some none
    | some e0 =>
      match p.entries[s1]? with
      | none => some none
      | some e1 =>
        match e0.data, e1.data with
        | some d0, some d1 => some (some (d0, d1))
        | _, _ => some none

/-- `Pool::invalidate_unreferenced` acting on the entry vector: panicking
index, `assert!(ref_count == 0)`, and clearing the item when present;
returns whether something was cleared. -/
def invalidateEntries {T : Type} (entries : List (PoolEntry T)) (slot : Nat) :
    Option (List (PoolEntry T) × Bool) :=
  match entries[slot]? with
  | none => none
  | some e =>
    if e.ref_count = 0 then
      match e.data with
      | none => some (entries, false)
      | some _ => some (entries.set slot { e with data := none }, true)
    else none

/-- The loop of `Pool::sync_refcounts`: drain the queue front to back;
`New` increments the slot's count, `Drop` decrements it (u16 arithmetic,
wrapping mod `2^16`) and hands control to `onZero` when the count lands
on zero. `none` is a panic (out-of-bounds slot, or a panic in `onZero`). -/
def syncLoop {T : Type}
    (onZero : List (PoolEntry T) → Nat → Option (List (PoolEntry T))) :
    List (PoolEntry T) → List Message → Option (List (PoolEntry T))
  | entries, [] => some entries
  | entries, Message.new slot :: rest =>
    match entries[slot]? with
    | none => none
    | some e =>
      syncLoop onZero
        (entries.set slot { e with ref_count := (e.ref_count + 1) % refCountMod }) rest
  | entries, Message.drop slot :: rest =>
    match entries[slot]? with
    | none => none
    | some e =>
      let rc := (e.ref_count + (refCountMod - 1)) % refCountMod
      let es := entries.set slot { e with ref_count := rc }
      if rc = 0 then
        match onZero es slot with
        | none => none
        | some es2 => syncLoop onZero es2 rest
      else syncLoop onZero es rest

/-- The `on_zero` callback that `Pool::sync_refcounts_and_invalidate`
passes: `invalidate_unreferenced`, discarding the returned flag. -/
def invCb {T : Type} (entries : List (PoolEntry T)) (slot : Nat) :
    Option (List (PoolEntry T)) :=
  (invalidateEntries entries slot).map Prod.fst

/-- `Pool::sync_refcounts`: run the drain loop over the current queue with a
caller-supplied zero-count callback; the queue is empty afterwards. -/
def Pool.sync_refcounts {T : Type} (p : Pool T)
    (onZero : List (PoolEntry T) → Nat → Option (List (PoolEntry T))) : Option (Pool T) :=
  match syncLoop onZero p.entries p.queue with
  | none => none
  | some es => some { entries := es, queue := [] }

/-- `Pool::sync_refcounts_and_invalidate`. -/
def Pool.sync_refcounts_and_invalidate {T : Type} (p : Pool T) : Option (Pool T) :=
  p.sync_refcounts invCb

/-- Client-visible pool operations, for whole-trace claims: allocation,
handle clone (`#[derivative(Clone)]` on `Handle`, which clones the fields
and the sender and sends nothing), handle drop (`impl Drop for Handle`,
which sends `Message::Drop(slot)`), weak-handle upgrade, and sync. -/
inductive Op (T : Type) where
  | addOp : T → Op T
  | cloneOp : Nat → Op T
  | dropOp : Nat → Op T
  | upgradeOp : Nat → Nat → Op T
  | syncOp : Op T

/-- A pool together with the outstanding strong handles the client holds,
in order of creation. -/
structure SysState (T : Type) where
  pool : Pool T
  handles : List Handle
deriving DecidableEq, Repr

/-- One client step. `cloneOp i` duplicates the i-th outstanding handle:
the derived `Clone` sends no message. `dropOp i` destroys it: `Drop`
sends `Message::Drop(slot)`. `upgradeOp` adds the upgraded handle when
`Pool::upgrade` succeeds. `none` is a panic or a nonexistent handle index. -/
def step {T : Type} (s : SysState T) : Op T → Option (SysState T)
  | Op.addOp item =>
    match s.pool.add item with
    | none => none
    | some (p, h) => some { pool := p, handles := s.handles ++ [h] }
  | Op.cloneOp i =>
    match s.handles[i]? with
    | none => none
    | some h => some { s with handles := s.handles ++ [h] }
  | Op.dropOp i =>
    match s.handles[i]? with
    | none => none
    | some h =>
      some { pool := { s.pool with queue := s.pool.queue ++ [Message.drop h.slot] },
             handles := s.handles.eraseIdx i }
  | Op.upgradeOp slot g =>
    match s.pool.upgrade { slot := slot, gen := g } with
    | none => none
    | some none => some s
    | some (some h) => some { s with handles := s.handles ++ [h] }
  | Op.syncOp =>
    match s.pool.sync_refcounts_and_invalidate with
    | none => none
    | some p => some { s with pool := p }

/-- Run a sequence of client operations. -/
def run {T : Type} (s : SysState T) : List (Op T) → Option (SysState T)
  | [] => some s
  | op :: rest =>
    match step s op with
    | none => none
    | some s2 => run s2 rest

/-- The freshly created pool (`Pool::with_capacity`) with no handles. -/
def initState (T : Type) : SysState T :=
  { pool := { entries := [], queue := [] }, handles := [] }

/-- Sum of the stored reference counts over all slots. -/
def sumRefCounts {T : Type} (p : Pool T) : Nat :=
  (p.entries.map PoolEntry.ref_count).sum

end ToyPool

namespace ToyPool

/-- C1: the claim says that after any operation sequence followed by a
completed sync, the sum of stored reference counts equals the number of
outstanding strong handles. The code violates it: after `add`, `clone`,
`sync` the sum of reference counts is 1 while two strong handles are
outstanding, because the derived `Clone` for `Handle` sends no
`Message::New`. -/
theorem C1_trace_refcount_mismatch :
    ∃ s : SysState Nat,
      run (initState Nat) [Op.addOp 0, Op.cloneOp 0, Op.syncOp] = some s ∧
      sumRefCounts s.pool = 1 ∧ s.handles.length = 2 :=
  ⟨{ pool := { entries := [{ data := some 0, gen := 1, ref_count := 1 }], queue := [] },
     handles := [{ slot := 0, gen := 1 }, { slot := 0, gen := 1 }] },
   by decide, by decide, by decide⟩

/-- C2: the claim says every handle creation (allocation or clone) enqueues a
"new reference" event. The code violates it: after `add` and `clone` the
queue is still empty (neither `Pool::add` nor the derived `Clone` sends
`Message::New`), while dropping a handle does enqueue `Message::Drop`. -/
theorem C2_creation_sends_no_message :
    ∃ s s2 : SysState Nat,
      run (initState Nat) [Op.addOp 7, Op.cloneOp 0] = some s ∧
      s.handles.length = 2 ∧ s.pool.queue = [] ∧
      step s (Op.dropOp 0) = some s2 ∧ s2.pool.queue = [Message.drop 0] :=
  ⟨{ pool := { entries := [{ data := some 7, gen := 1, ref_count := 1 }], queue := [] },
     handles := [{ slot := 0, gen := 1 }, { slot := 0, gen := 1 }] },
   { pool := { entries := [{ data := some 7, gen := 1, ref_count := 1 }],
               queue := [Message.drop 0] },
     handles := [{ slot := 0, gen := 1 }] },
   by decide, by decide, by decide, by decide, by decide⟩

/-- C3: the claim says `add` always stores the item in an entry whose
reference count is 1. The code violates it on the slot-reuse path: after
`add`, `drop`, `sync` (which clears slot 0 and leaves its count at 0), a
second `add` reuses slot 0 but leaves `ref_count` at 0 even though the
returned strong handle is outstanding. -/
theorem C3_reuse_keeps_zero_refcount :
    ∃ s : SysState Nat,
      run (initState Nat) [Op.addOp 1, Op.dropOp 0, Op.syncOp, Op.addOp 2] = some s ∧
      s.pool.entries = [{ data := some 2, gen := 2, ref_count := 0 }] ∧
      s.handles = [{ slot := 0, gen := 2 }] :=
  ⟨{ pool := { entries := [{ data := some 2, gen := 2, ref_count := 0 }], queue := [] },
     handles := [{ slot := 0, gen := 2 }] }, by decide, by decide, by decide⟩

/-- C6 counterexample: generations are not pool-global. Two allocations into
an empty pool put two distinct logical items at distinct slots, both with
generation 1, so a generation value is shared by two logical items. -/
theorem C6_generation_not_pool_global :
    ∃ (p1 p2 : Pool Nat) (h1 h2 : Handle),
      Pool.add { entries := [], queue := [] } 10 = some (p1, h1) ∧
      Pool.add p1 11 = some (p2, h2) ∧
      h1.slot ≠ h2.slot ∧ h1.gen = h2.gen :=
  ⟨{ entries := [{ data := some 10, gen := 1, ref_count := 1 }], queue := [] },
   { entries := [{ data := some 10, gen := 1, ref_count := 1 },
                 { data := some 11, gen := 1, ref_count := 1 }], queue := [] },
   { slot := 0, gen := 1 }, { slot := 1, gen := 1 },
   by decide, by decide, by decide, by decide⟩

end ToyPool

namespace ToyPool

/-- C5: for an in-range slot, `upgrade` returns a strong handle with the weak
handle's slot and generation exactly when the stored generation matches and
the current reference count is nonzero; on a zero count or a generation
mismatch it returns `None`; and for a slot at or beyond the table bounds it
never returns a strong handle (it returns `None` past the bound and panics
at the bound). -/
theorem C5_upgrade_spec {T : Type} (p : Pool T) (w : WeakHandle) (e : PoolEntry T)
    (he : p.entries[w.slot]? = some e) :
    (p.upgrade w = some (some { slot := w.slot, gen := w.gen }) ↔
      (e.ref_count ≠ 0 ∧ e.gen = w.gen)) ∧
    ((e.ref_count = 0 ∨ e.gen ≠ w.gen) → p.upgrade w = some none) ∧
    (∀ (q : Pool T) (v : WeakHandle) (h2 : Handle),
      q.entries.length ≤ v.slot → q.upgrade v ≠ some (some h2)) := by
  have hlt : w.slot < p.entries.length := (List.getElem?_eq_some.mp he).1
  have hnotlt : ¬ p.entries.length < w.slot := by omega
  refine ⟨?_, ?_, ?_⟩
  · unfold Pool.upgrade
    rw [if_neg hnotlt, he]
    by_cases h0 : e.ref_count = 0
    · simp [h0]
    · by_cases hg : e.gen = w.gen
      · simp [h0, hg]
      · simp [h0, hg]
  · intro hcase
    unfold Pool.upgrade
    rw [if_neg hnotlt, he]
    rcases hcase with h0 | hg
    · simp [h0]
    · rcases Decidable.em (e.ref_count = 0) with h0 | h0 <;> simp [h0, hg]
  · intro q v h2 hle
    unfold Pool.upgrade
    by_cases hlt2 : q.entries.length < v.slot
    · rw [if_pos hlt2]; simp
    · rw [if_neg hlt2, List.getElem?_eq_none (by omega)]
      simp

/-- C5 witness: upgrading a matching weak handle against a live entry
succeeds with the same slot and generation. -/
theorem C5_upgrade_spec_witness :
    Pool.upgrade (T := Nat)
        { entries := [{ data := some 3, gen := 5, ref_count := 2 }], queue := [] }
        { slot := 0, gen := 5 } = some (some { slot := 0, gen := 5 }) :=
  ((C5_upgrade_spec { entries := [{ data := some 3, gen := 5, ref_count := 2 }], queue := [] }
      { slot := 0, gen := 5 } { data := some 3, gen := 5, ref_count := 2 } (by decide)).1).mpr
    (by decide)

/-- C8: strong-handle indexing (immutable and mutable) panics exactly when
the handle's in-range slot holds no item, and returns the stored item
(resp. applies the mutation to it) when the item is present. -/
theorem C8_index_spec {T : Type} (p : Pool T) (h : Handle) (e : PoolEntry T)
    (he : p.entries[h.slot]? = some e) :
    (e.data = none → p.index h = none ∧ ∀ f, p.index_mut h f = none) ∧
    (∀ x, e.data = some x →
      p.index h = some x ∧
      ∀ f, p.index_mut h f =
        some { p with entries := p.entries.set h.slot { e with data := some (f x) } }) := by
  refine ⟨?_, ?_⟩
  · intro hd
    refine ⟨?_, ?_⟩
    · unfold Pool.index; rw [he]; exact hd
    · intro f; simp [Pool.index_mut, he, hd]
  · intro x hd
    refine ⟨?_, ?_⟩
    · unfold Pool.index; rw [he]; exact hd
    · intro f; simp [Pool.index_mut, he, hd]

/-- C8 witness: indexing a live slot returns its item. -/
theorem C8_index_spec_witness :
    Pool.index (T := Nat)
        { entries := [{ data := some 9, gen := 1, ref_count := 1 }], queue := [] }
        { slot := 0, gen := 1 } = some 9 :=
  ((C8_index_spec { entries := [{ data := some 9, gen := 1, ref_count := 1 }], queue := [] }
      { slot := 0, gen := 1 } { data := some 9, gen := 1, ref_count := 1 } (by decide)).2
    9 rfl).1

/-- C9: `get2_mut_by_slot` with two identical slots always panics on the
`assert_ne` (it never returns, so it never aliases); with two distinct
in-range slots whose items are both present it returns the pair of items of
the two distinct entries. -/
theorem C9_get2_spec {T : Type} (p : Pool T) (s0 s1 : Nat) (e0 e1 : PoolEntry T) (d0 d1 : T)
    (hne : s0 ≠ s1) (h0 : p.entries[s0]? = some e0) (h1 : p.entries[s1]? = some e1)
    (hd0 : e0.data = some d0) (hd1 : e1.data = some d1) :
    p.get2_mut_by_slot s0 s1 = some (some (d0, d1)) ∧
    ∀ (q : Pool T) (s : Nat) (r : Option (T × T)), q.get2_mut_by_slot s s ≠ some r := by
  refine ⟨?_, ?_⟩
  · simp [Pool.get2_mut_by_slot, hne, h0, h1, hd0, hd1]
  · intro q s r
    unfold Pool.get2_mut_by_slot
    simp

/-- C9 witness: distinct live slots yield the two items. -/
theorem C9_get2_spec_witness :
    Pool.get2_mut_by_slot (T := Nat)
        { entries := [{ data := some 4, gen := 1, ref_count := 1 },
                      { data := some 6, gen := 2, ref_count := 1 }], queue := [] } 0 1 =
      some (some (4, 6)) :=
  (C9_get2_spec
      { entries := [{ data := some 4, gen := 1, ref_count := 1 },
                    { data := some 6, gen := 2, ref_count := 1 }], queue := [] }
      0 1 { data := some 4, gen := 1, ref_count := 1 } { data := some 6, gen := 2, ref_count := 1 }
      4 6 (by decide) (by decide) (by decide) rfl rfl).1

end ToyPool

namespace ToyPool

/-- The index returned by `find_empty_slot` points at an entry whose item is
absent. -/
theorem findEmptySlot_spec {T : Type} :
    ∀ (l : List (PoolEntry T)) (i : Nat), findEmptySlot l = some i →
      ∃ e, l[i]? = some e ∧ e.data = none := by
  intro l
  induction l with
  | nil => intro i h; simp [findEmptySlot] at h
  | cons e rest ih =>
    intro i h
    by_cases hd : e.data.isNone
    · rw [findEmptySlot, if_pos hd] at h
      cases h
      exact ⟨e, by simp, Option.isNone_iff_eq_none.mp hd⟩
    · rw [findEmptySlot, if_neg hd] at h
      obtain ⟨j, hj, hij⟩ := Option.map_eq_some'.mp h
      obtain ⟨e2, hget, hdata⟩ := ih j hj
      subst hij
      exact ⟨e2, by simpa [List.getElem?_cons_succ] using hget, hdata⟩

/-- Full case analysis of `Pool::add`: a successful allocation either
overwrites in place the free entry found by the scan (keeping its
`ref_count` and bumping its generation via `genSucc`) or appends a fresh
entry with generation 1 and `ref_count` 1 at the old length. -/
theorem add_spec {T : Type} (p p2 : Pool T) (item : T) (h : Handle)
    (hadd : p.add item = some (p2, h)) :
    (∃ e : PoolEntry T,
        findEmptySlot p.entries = some h.slot ∧
        p.entries[h.slot]? = some e ∧ e.data = none ∧
        genSucc e.gen = some h.gen ∧
        p2 = { p with entries := p.entries.set h.slot ⟨some item, h.gen, e.ref_count⟩ }) ∨
    (findEmptySlot p.entries = none ∧ h.slot = p.entries.length ∧ h.gen = 1 ∧
        p2 = { p with entries :=
                 p.entries ++ [{ data := some item, gen := 1, ref_count := 1 }] }) := by
  unfold Pool.add at hadd
  cases hfind : findEmptySlot p.entries with
  | none =>
    rw [hfind] at hadd
    injection hadd with hpair
    injection hpair with hp2 hh
    right
    subst hh
    exact ⟨rfl, rfl, rfl, hp2.symm⟩
  | some i =>
    rw [hfind] at hadd
    dsimp only [] at hadd
    cases hget : p.entries[i]? with
    | none => rw [hget] at hadd; exact absurd hadd (by simp)
    | some e =>
      rw [hget] at hadd
      dsimp only [] at hadd
      cases hg : genSucc e.gen with
      | none => rw [hg] at hadd; exact absurd hadd (by simp)
      | some g =>
        rw [hg] at hadd
        dsimp only [] at hadd
        injection hadd with hpair
        injection hpair with hp2 hh
        left
        subst hh
        obtain ⟨e2, hget2, hdata⟩ := findEmptySlot_spec p.entries i hfind
        rw [hget] at hget2
        injection hget2 with he2
        subst he2
        exact ⟨e, rfl, hget, hdata, hg, hp2.symm⟩

/-- C6 (amended): the generation a successful allocation assigns is strictly
positive and below `2^32`; all slots other than the allocated one are
untouched; the allocated slot either reuses a free entry with a generation
exactly one larger than that slot's previous generation (per-slot
monotonicity), or is a newly appended entry with generation 1; and an
allocation that would step a slot's generation past `2^32 - 1` panics
("Generation overflow!") instead of wrapping. -/
theorem C6_per_slot_generation {T : Type} (p p2 : Pool T) (item : T) (h : Handle)
    (hwf : ∀ x ∈ p.entries, x.gen < genMod)
    (hadd : p.add item = some (p2, h)) :
    (1 ≤ h.gen ∧ h.gen < genMod) ∧
    (∀ j, j ≠ h.slot → p2.entries[j]? = p.entries[j]?) ∧
    ((∃ e, p.entries[h.slot]? = some e ∧ e.data = none ∧ h.gen = e.gen + 1) ∨
      (h.slot = p.entries.length ∧ h.gen = 1)) ∧
    (∀ (q : Pool T) (y : T) (i : Nat) (e : PoolEntry T),
      findEmptySlot q.entries = some i → q.entries[i]? = some e →
      e.gen + 1 = genMod → q.add y = none) := by
  have hover : ∀ (q : Pool T) (y : T) (i : Nat) (e : PoolEntry T),
      findEmptySlot q.entries = some i → q.entries[i]? = some e →
      e.gen + 1 = genMod → q.add y = none := by
    intro q y i e hfind hget hov
    simp [Pool.add, hfind, hget, genSucc, hov]
  rcases add_spec p p2 item h hadd with
    ⟨e, hfind, hget, hdata, hg, hp2⟩ | ⟨hfind, hslot, hgen, hp2⟩
  · have hmem : e ∈ p.entries := List.getElem?_mem hget
    have hegen : e.gen < genMod := hwf e hmem
    have hsuc : h.gen = e.gen + 1 := by
      unfold genSucc at hg
      by_cases hov : e.gen + 1 = genMod
      · rw [hov] at hg; simp at hg
      · have hlt : e.gen + 1 < genMod := by omega
        rw [Nat.mod_eq_of_lt hlt] at hg
        have : ¬ (e.gen + 1 = 0) := by omega
        rw [if_neg this] at hg
        exact (Option.some_inj.mp hg).symm
    refine ⟨⟨by omega, ?_⟩, ?_, Or.inl ⟨e, hget, hdata, hsuc⟩, hover⟩
    · have : e.gen + 1 ≠ genMod := by
        intro hc
        unfold genSucc at hg
        rw [hc] at hg
        simp at hg
      omega
    · intro j hj
      rw [hp2]
      exact List.getElem?_set_ne (by omega)
  · refine ⟨⟨by omega, by rw [hgen]; unfold genMod; omega⟩, ?_, Or.inr ⟨hslot, hgen⟩, hover⟩
    intro j hj
    rw [hp2, hslot] at *
    by_cases hlt : j < p.entries.length
    · exact List.getElem?_append_left hlt
    · rw [List.getElem?_eq_none (l := p.entries) (by omega),
        List.getElem?_eq_none (by simp; omega)]

/-- C6 witness: allocating into a pool whose slot 0 is free with generation 4
yields generation 5 at slot 0 and leaves slot 1 untouched. -/
theorem C6_per_slot_generation_witness :
    Pool.add (T := Nat)
      { entries := [{ data := none, gen := 4, ref_count := 0 },
                    { data := some 8, gen := 2, ref_count := 1 }], queue := [] } 3 =
      some ({ entries := [{ data := some 3, gen := 5, ref_count := 0 },
                          { data := some 8, gen := 2, ref_count := 1 }], queue := [] },
            { slot := 0, gen := 5 }) ∧
    (1 ≤ (5 : Nat) ∧ (5 : Nat) < genMod) := by
  have h := C6_per_slot_generation (T := Nat)
      { entries := [{ data := none, gen := 4, ref_count := 0 },
                    { data := some 8, gen := 2, ref_count := 1 }], queue := [] }
      { entries := [{ data := some 3, gen := 5, ref_count := 0 },
                    { data := some 8, gen := 2, ref_count := 1 }], queue := [] }
      3 { slot := 0, gen := 5 }
      (by decide) (by decide)
  exact ⟨by decide, h.1⟩

end ToyPool

namespace ToyPool

/-- A successful `genSucc` on an in-range generation is exactly `+ 1`. -/
theorem genSucc_spec (g g2 : Nat) (hlt : g < genMod) (h : genSucc g = some g2) :
    g2 = g + 1 ∧ g + 1 < genMod := by
  unfold genSucc at h
  dsimp only [] at h
  by_cases hov : g + 1 = genMod
  · rw [hov, Nat.mod_self] at h
    simp at h
  · rw [Nat.mod_eq_of_lt (by omega)] at h
    rw [if_neg (by omega)] at h
    exact ⟨(Option.some_inj.mp h).symm, by omega⟩

/-- `invalidate_unreferenced` never changes the length of the entry table or
any entry's generation. -/
theorem invalidateEntries_spec {T : Type} (es : List (PoolEntry T)) (slot : Nat)
    (res : List (PoolEntry T) × Bool) (h : invalidateEntries es slot = some res) :
    res.1.length = es.length ∧
    ∀ j : Nat, (res.1[j]?).map PoolEntry.gen = (es[j]?).map PoolEntry.gen := by
  unfold invalidateEntries at h
  cases hget : es[slot]? with
  | none => rw [hget] at h; exact absurd h (by simp)
  | some e =>
    rw [hget] at h
    dsimp only [] at h
    by_cases h0 : e.ref_count = 0
    · rw [if_pos h0] at h
      have hlt : slot < es.length := (List.getElem?_eq_some.mp hget).1
      cases hd : e.data with
      | none =>
        rw [hd] at h
        dsimp only [] at h
        injection h with hres
        rw [← hres]
        exact ⟨rfl, fun j => rfl⟩
      | some x =>
        rw [hd] at h
        dsimp only [] at h
        injection h with hres
        rw [← hres]
        refine ⟨List.length_set es slot _, ?_⟩
        intro j
        by_cases hj : j = slot
        · subst hj
          rw [List.getElem?_set_eq_of_lt _ hlt, hget]
          rfl
        · rw [List.getElem?_set_ne (fun hc => hj hc.symm)]
    · rw [if_neg h0] at h
      exact absurd h (by simp)

/-- The drain loop with the invalidation callback never changes the length
of the entry table or any entry's generation. -/
theorem syncLoop_gen_len {T : Type} :
    ∀ (q : List Message) (es es2 : List (PoolEntry T)),
      syncLoop invCb es q = some es2 →
      es2.length = es.length ∧
      ∀ j : Nat, (es2[j]?).map PoolEntry.gen = (es[j]?).map PoolEntry.gen := by
  intro q
  induction q with
  | nil =>
    intro es es2 h
    simp only [syncLoop] at h
    injection h with hes
    rw [hes]
    exact ⟨rfl, fun j => rfl⟩
  | cons m rest ih =>
    intro es es2 h
    cases m with
    | new slot =>
      simp only [syncLoop] at h
      cases hget : es[slot]? with
      | none => rw [hget] at h; exact absurd h (by simp)
      | some e =>
        rw [hget] at h
        dsimp only [] at h
        have hlt : slot < es.length := (List.getElem?_eq_some.mp hget).1
        obtain ⟨hlen, hgen⟩ := ih _ _ h
        refine ⟨by rw [hlen, List.length_set], ?_⟩
        intro j
        rw [hgen j]
        by_cases hj : j = slot
        · subst hj
          rw [List.getElem?_set_eq_of_lt _ hlt, hget]
          rfl
        · rw [List.getElem?_set_ne (fun hc => hj hc.symm)]
    | drop slot =>
      simp only [syncLoop] at h
      cases hget : es[slot]? with
      | none => rw [hget] at h; exact absurd h (by simp)
      | some e =>
        rw [hget] at h
        dsimp only [] at h
        have hlt : slot < es.length := (List.getElem?_eq_some.mp hget).1
        have hset : ∀ rc : Nat,
            ((es.set slot { e with ref_count := rc }).length = es.length ∧
             ∀ j : Nat, ((es.set slot { e with ref_count := rc })[j]?).map PoolEntry.gen =
               (es[j]?).map PoolEntry.gen) := by
          intro rc
          refine ⟨List.length_set es slot _, ?_⟩
          intro j
          by_cases hj : j = slot
          · subst hj
            rw [List.getElem?_set_eq_of_lt _ hlt, hget]
            rfl
          · rw [List.getElem?_set_ne (fun hc => hj hc.symm)]
        by_cases hrc : (e.ref_count + (refCountMod - 1)) % refCountMod = 0
        · rw [if_pos hrc] at h
          cases hcb : invCb (es.set slot { e with ref_count :=
              (e.ref_count + (refCountMod - 1)) % refCountMod }) slot with
          | none => rw [hcb] at h; exact absurd h (by simp)
          | some esb =>
            rw [hcb] at h
            dsimp only [] at h
            obtain ⟨hlen2, hgen2⟩ := ih _ _ h
            unfold invCb at hcb
            cases hinv : invalidateEntries (es.set slot { e with ref_count :=
                (e.ref_count + (refCountMod - 1)) % refCountMod }) slot with
            | none => rw [hinv] at hcb; exact absurd hcb (by simp)
            | some res =>
              rw [hinv, Option.map_some'] at hcb
              injection hcb with hesb
              obtain ⟨hlen3, hgen3⟩ := invalidateEntries_spec _ _ _ hinv
              rw [hesb] at hlen3 hgen3
              obtain ⟨hlen4, hgen4⟩ := hset ((e.ref_count + (refCountMod - 1)) % refCountMod)
              refine ⟨by rw [hlen2, hlen3, hlen4], ?_⟩
              intro j
              rw [hgen2 j, hgen3 j, hgen4 j]
        · rw [if_neg hrc] at h
          obtain ⟨hlen2, hgen2⟩ := ih _ _ h
          obtain ⟨hlen4, hgen4⟩ := hset ((e.ref_count + (refCountMod - 1)) % refCountMod)
          refine ⟨by rw [hlen2, hlen4], ?_⟩
          intro j
          rw [hgen2 j, hgen4 j]

/-- C7: when an allocation lands in an already-existing slot (slot reuse),
the new generation is strictly greater than the generation stored there,
and a completed sync never changes any slot's generation; hence two
allocations into the same physical slot, synced in between, carry strictly
increasing generations. -/
theorem C7_slot_reuse_gen_increases {T : Type} (p p2 : Pool T) (item : T) (h : Handle)
    (e : PoolEntry T)
    (hwf : ∀ x ∈ p.entries, x.gen < genMod)
    (hadd : p.add item = some (p2, h))
    (he : p.entries[h.slot]? = some e) :
    e.gen < h.gen ∧
    (∀ (q q2 : Pool T), q.sync_refcounts_and_invalidate = some q2 →
      ∀ j : Nat, (q2.entries[j]?).map PoolEntry.gen = (q.entries[j]?).map PoolEntry.gen) := by
  constructor
  · rcases add_spec p p2 item h hadd with
      ⟨e2, _, hget, _, hg, _⟩ | ⟨_, hslot, _, _⟩
    · rw [he] at hget
      injection hget with he2
      subst he2
      have hegen : e.gen < genMod := hwf e (List.getElem?_mem he)
      obtain ⟨hg1, _⟩ := genSucc_spec e.gen h.gen hegen hg
      omega
    · rw [hslot, List.getElem?_eq_none (le_refl _)] at he
      exact absurd he (by simp)
  · intro q q2 hsync j
    unfold Pool.sync_refcounts_and_invalidate Pool.sync_refcounts at hsync
    cases hloop : syncLoop invCb q.entries q.queue with
    | none => rw [hloop] at hsync; exact absurd hsync (by simp)
    | some es =>
      rw [hloop] at hsync
      dsimp only [] at hsync
      injection hsync with hq2
      rw [← hq2]
      exact (syncLoop_gen_len q.queue q.entries es hloop).2 j

/-- C7 witness: reusing the invalidated slot 0 (old generation 1) yields
generation 2. -/
theorem C7_slot_reuse_gen_increases_witness :
    ∃ pr : Pool Nat × Handle,
      Pool.add { entries := [{ data := none, gen := 1, ref_count := 0 }], queue := [] } 2 =
        some pr ∧ 1 < pr.2.gen :=
  ⟨({ entries := [{ data := some 2, gen := 2, ref_count := 0 }], queue := [] },
    { slot := 0, gen := 2 }),
   by decide,
   (C7_slot_reuse_gen_increases
      { entries := [{ data := none, gen := 1, ref_count := 0 }], queue := [] }
      { entries := [{ data := some 2, gen := 2, ref_count := 0 }], queue := [] }
      2 { slot := 0, gen := 2 } { data := none, gen := 1, ref_count := 0 }
      (by decide) (by decide) (by decide)).1⟩

end ToyPool

namespace ToyPool

/-- The weak-handle accessors never panic on an in-range slot. -/
theorem get_in_bounds_isSome {T : Type} (p : Pool T) (w : WeakHandle)
    (hlt : w.slot < p.entries.length) :
    (p.get w).isSome ∧ (p.get_mut w).isSome := by
  have he : p.entries[w.slot]? = some p.entries[w.slot] := List.getElem?_eq_getElem hlt
  constructor
  · unfold Pool.get
    rw [he]
    by_cases hg : p.entries[w.slot].gen = w.gen <;> simp [hg]
  · unfold Pool.get_mut
    rw [he]
    by_cases hg : p.entries[w.slot].gen = w.gen <;> simp [hg]

/-- A successful upgrade returns a handle whose slot is the weak handle's
slot, which is inside the entry table. -/
theorem upgrade_some_inv {T : Type} (p : Pool T) (w : WeakHandle) (h2 : Handle)
    (h : p.upgrade w = some (some h2)) :
    h2.slot = w.slot ∧ w.slot < p.entries.length := by
  unfold Pool.upgrade at h
  by_cases hlt : p.entries.length < w.slot
  · rw [if_pos hlt] at h
    exact absurd h (by simp)
  · rw [if_neg hlt] at h
    cases hget : p.entries[w.slot]? with
    | none => rw [hget] at h; exact absurd h (by simp)
    | some e =>
      rw [hget] at h
      dsimp only [] at h
      by_cases h0 : e.ref_count = 0
      · rw [if_pos h0] at h
        exact absurd h (by simp)
      · rw [if_neg h0] at h
        by_cases hg : e.gen = w.gen
        · rw [if_pos hg] at h
          injection h with hsome
          injection hsome with hh
          rw [← hh]
          exact ⟨rfl, (List.getElem?_eq_some.mp hget).1⟩
        · rw [if_neg hg] at h
          exact absurd h (by simp)

/-- A completed sync leaves the entry table's length unchanged. -/
theorem sync_preserves_length {T : Type} (p p2 : Pool T)
    (h : p.sync_refcounts_and_invalidate = some p2) :
    p2.entries.length = p.entries.length := by
  unfold Pool.sync_refcounts_and_invalidate Pool.sync_refcounts at h
  cases hloop : syncLoop invCb p.entries p.queue with
  | none => rw [hloop] at h; exact absurd h (by simp)
  | some es =>
    rw [hloop] at h
    dsimp only [] at h
    injection h with h2
    rw [← h2]
    exact (syncLoop_gen_len p.queue p.entries es hloop).1

/-- C10: every client step leaves the entry table's length unchanged or grows
it by exactly one (entries are never removed); starting from a state whose
outstanding handles all carry in-range slots, every handle after the step
(including any newly issued one) still carries an in-range slot; and on any
in-range slot the weak accessors `get` and `get_mut` never panic. -/
theorem C10_issued_handles_in_bounds {T : Type} (s s2 : SysState T) (op : Op T)
    (hstep : step s op = some s2)
    (hok : ∀ h ∈ s.handles, h.slot < s.pool.entries.length) :
    (s.pool.entries.length ≤ s2.pool.entries.length ∧
     s2.pool.entries.length ≤ s.pool.entries.length + 1) ∧
    (∀ h ∈ s2.handles, h.slot < s2.pool.entries.length) ∧
    (∀ w : WeakHandle, w.slot < s2.pool.entries.length →
      (s2.pool.get w).isSome ∧ (s2.pool.get_mut w).isSome) := by
  have hmain : (s.pool.entries.length ≤ s2.pool.entries.length ∧
      s2.pool.entries.length ≤ s.pool.entries.length + 1) ∧
      (∀ h ∈ s2.handles, h.slot < s2.pool.entries.length) := by
    cases op with
    | addOp item =>
      simp only [step] at hstep
      cases hadd : s.pool.add item with
      | none => rw [hadd] at hstep; exact absurd hstep (by simp)
      | some pr =>
        rw [hadd] at hstep
        dsimp only [] at hstep
        injection hstep with hs2
        rcases add_spec s.pool pr.1 item pr.2 (by rw [hadd]) with
          ⟨e, _, hget, _, _, hp2⟩ | ⟨_, hslot, _, hp2⟩
        · have hlen : pr.1.entries.length = s.pool.entries.length := by
            rw [hp2]; exact List.length_set s.pool.entries pr.2.slot _
          have hslotlt : pr.2.slot < s.pool.entries.length := (List.getElem?_eq_some.mp hget).1
          refine ⟨?_, ?_⟩
          · rw [← hs2]; dsimp only []; omega
          · intro h hmem
            rw [← hs2] at hmem ⊢
            dsimp only [] at hmem ⊢
            rcases List.mem_append.mp hmem with hold | hnew
            · have := hok h hold; omega
            · rw [List.mem_singleton.mp hnew]; omega
        · have hlen : pr.1.entries.length = s.pool.entries.length + 1 := by
            rw [hp2]; simp
          refine ⟨?_, ?_⟩
          · rw [← hs2]; dsimp only []; omega
          · intro h hmem
            rw [← hs2] at hmem ⊢
            dsimp only [] at hmem ⊢
            rcases List.mem_append.mp hmem with hold | hnew
            · have := hok h hold; omega
            · rw [List.mem_singleton.mp hnew]; omega
    | cloneOp i =>
      simp only [step] at hstep
      cases hidx : s.handles[i]? with
      | none => rw [hidx] at hstep; exact absurd hstep (by simp)
      | some h =>
        rw [hidx] at hstep
        dsimp only [] at hstep
        injection hstep with hs2
        refine ⟨by rw [← hs2]; dsimp only []; omega, ?_⟩
        intro x hmem
        rw [← hs2] at hmem ⊢
        dsimp only [] at hmem ⊢
        rcases List.mem_append.mp hmem with hold | hnew
        · exact hok x hold
        · rw [List.mem_singleton.mp hnew]
          exact hok h (List.getElem?_mem hidx)
    | dropOp i =>
      simp only [step] at hstep
      cases hidx : s.handles[i]? with
      | none => rw [hidx] at hstep; exact absurd hstep (by simp)
      | some h =>
        rw [hidx] at hstep
        dsimp only [] at hstep
        injection hstep with hs2
        refine ⟨by rw [← hs2]; dsimp only []; omega, ?_⟩
        intro x hmem
        rw [← hs2] at hmem ⊢
        dsimp only [] at hmem ⊢
        exact hok x (List.mem_of_mem_eraseIdx hmem)
    | upgradeOp slot g =>
      simp only [step] at hstep
      cases hup : s.pool.upgrade { slot := slot, gen := g } with
      | none => rw [hup] at hstep; exact absurd hstep (by simp)
      | some r =>
        rw [hup] at hstep
        cases r with
        | none =>
          dsimp only [] at hstep
          injection hstep with hs2
          rw [← hs2]
          exact ⟨by omega, hok⟩
        | some h2 =>
          dsimp only [] at hstep
          injection hstep with hs2
          obtain ⟨hh2, hlt⟩ := upgrade_some_inv s.pool { slot := slot, gen := g } h2 hup
          refine ⟨by rw [← hs2]; dsimp only []; omega, ?_⟩
          intro x hmem
          rw [← hs2] at hmem ⊢
          dsimp only [] at hmem ⊢
          rcases List.mem_append.mp hmem with hold | hnew
          · exact hok x hold
          · rw [List.mem_singleton.mp hnew, hh2]
            exact hlt
    | syncOp =>
      simp only [step] at hstep
      cases hs : s.pool.sync_refcounts_and_invalidate with
      | none => rw [hs] at hstep; exact absurd hstep (by simp)
      | some p2 =>
        rw [hs] at hstep
        dsimp only [] at hstep
        injection hstep with hs2
        have hlen := sync_preserves_length s.pool p2 hs
        refine ⟨by rw [← hs2]; dsimp only []; omega, ?_⟩
        intro x hmem
        rw [← hs2] at hmem ⊢
        dsimp only [] at hmem ⊢
        have := hok x hmem
        omega

  exact ⟨hmain.1, hmain.2, fun w hw => get_in_bounds_isSome s2.pool w hw⟩

/-- C10 witness: after allocating into the fresh pool, the issued handle's
slot is in range and the weak accessor does not panic there. -/
theorem C10_issued_handles_in_bounds_witness :
    (Pool.get (T := Nat) { entries := [{ data := some 5, gen := 1, ref_count := 1 }], queue := [] }
      { slot := 0, gen := 1 }).isSome := by
  have h := C10_issued_handles_in_bounds (initState Nat)
      { pool := { entries := [{ data := some 5, gen := 1, ref_count := 1 }], queue := [] },
        handles := [{ slot := 0, gen := 1 }] }
      (Op.addOp 5) (by decide) (by intro x hx; simp [initState] at hx)
  exact (h.2.2 { slot := 0, gen := 1 } (by decide)).1

end ToyPool

namespace ToyPool

/-- Restatement of the spec's description of a single sync event, for the
refinement comparison with `syncLoop`: an "added" event increments the named
slot's reference count by one; a "dropped" event decrements it by one and
clears the entry's item exactly when the count lands on zero. -/
def specSyncStep {T : Type} (entries : List (PoolEntry T)) (m : Message) :
    List (PoolEntry T) :=
  match m with
  | Message.new slot =>
    match entries[slot]? with
    | none => entries
    | some e => entries.set slot { e with ref_count := e.ref_count + 1 }
  | Message.drop slot =>
    match entries[slot]? with
    | none => entries
    | some e =>
      let rc := e.ref_count - 1
      if rc = 0 then entries.set slot { data := none, gen := e.gen, ref_count := rc }
      else entries.set slot { data := e.data, gen := e.gen, ref_count := rc }

/-- Well-formedness of a queue against an entry table, checked along the
spec-side fold: every event's slot is in range, every increment stays below
`2^16`, and every decrement starts from a positive in-range count (so the
u16 arithmetic cannot wrap). -/
def queueOk {T : Type} : List (PoolEntry T) → List Message → Bool
  | _, [] => true
  | entries, m :: rest =>
    (match m with
     | Message.new slot =>
       match entries[slot]? with
       | none => false
       | some e => decide (e.ref_count + 1 < refCountMod)
     | Message.drop slot =>
       match entries[slot]? with
       | none => false
       | some e => decide (0 < e.ref_count) && decide (e.ref_count < refCountMod)) &&
    queueOk (specSyncStep entries m) rest

/-- On a well-formed queue the drain loop (with the invalidating callback)
computes exactly the left fold of the spec-side event step, in FIFO order. -/
theorem syncLoop_eq_specFold {T : Type} :
    ∀ (q : List Message) (entries : List (PoolEntry T)),
      queueOk entries q = true →
      syncLoop invCb entries q = some (q.foldl specSyncStep entries) := by
  intro q
  induction q with
  | nil =>
    intro entries _
    simp [syncLoop]
  | cons m rest ih =>
    intro entries hok
    cases m with
    | new slot =>
      cases hget : entries[slot]? with
      | none =>
        simp only [queueOk, hget, Bool.false_and] at hok
        exact absurd hok (by simp)
      | some e =>
        simp only [queueOk, hget, Bool.and_eq_true, decide_eq_true_eq] at hok
        obtain ⟨hbound, hrest⟩ := hok
        have hmod : (e.ref_count + 1) % refCountMod = e.ref_count + 1 :=
          Nat.mod_eq_of_lt hbound
        have hstep : specSyncStep entries (Message.new slot) =
            entries.set slot { e with ref_count := e.ref_count + 1 } := by
          simp [specSyncStep, hget]
        simp only [syncLoop, hget, List.foldl_cons]
        rw [hmod, ← hstep]
        exact ih (specSyncStep entries (Message.new slot)) hrest
    | drop slot =>
      cases hget : entries[slot]? with
      | none =>
        simp only [queueOk, hget, Bool.false_and] at hok
        exact absurd hok (by simp)
      | some e =>
        simp only [queueOk, hget, Bool.and_eq_true, decide_eq_true_eq] at hok
        obtain ⟨⟨hpos, hlt⟩, hrest⟩ := hok
        have hm : refCountMod = 65536 := rfl
        have hdec : (e.ref_count + (refCountMod - 1)) % refCountMod = e.ref_count - 1 := by
          have h1 : e.ref_count + (refCountMod - 1) = (e.ref_count - 1) + refCountMod := by
            omega
          rw [h1, Nat.add_mod_right]
          exact Nat.mod_eq_of_lt (by omega)
        have hlt2 : slot < entries.length := (List.getElem?_eq_some.mp hget).1
        simp only [syncLoop, hget, List.foldl_cons]
        rw [hdec]
        by_cases hz : e.ref_count - 1 = 0
        · rw [if_pos hz]
          have hget2 : (entries.set slot { e with ref_count := e.ref_count - 1 })[slot]? =
              some { e with ref_count := e.ref_count - 1 } :=
            List.getElem?_set_eq_of_lt _ hlt2
          have hcb : invCb (entries.set slot { e with ref_count := e.ref_count - 1 }) slot =
              some (specSyncStep entries (Message.drop slot)) := by
            unfold invCb invalidateEntries
            rw [hget2]
            dsimp only []
            rw [if_pos hz]
            cases hd : e.data with
            | none => simp [specSyncStep, hget, hz, hd]
            | some x => simp [specSyncStep, hget, hz, hd, List.set_set]
          rw [hcb]
          dsimp only []
          exact ih (specSyncStep entries (Message.drop slot)) hrest
        · rw [if_neg hz]
          have hform : specSyncStep entries (Message.drop slot) =
              entries.set slot { e with ref_count := e.ref_count - 1 } := by
            simp [specSyncStep, hget, hz]
          rw [← hform]
          exact ih (specSyncStep entries (Message.drop slot)) hrest

/-- C4: on a well-formed queue, `sync_refcounts_and_invalidate` drains every
queued event in strict FIFO enqueue order, applying to the entry table
exactly the left fold of the per-event step — "added" increments the named
slot's count by one, "dropped" decrements it by one and clears the item
exactly when the decrement lands the count on zero — and leaves the queue
empty. -/
theorem C4_sync_drains_fifo {T : Type} (p : Pool T)
    (hok : queueOk p.entries p.queue = true) :
    p.sync_refcounts_and_invalidate =
      some { entries := p.queue.foldl specSyncStep p.entries, queue := [] } := by
  unfold Pool.sync_refcounts_and_invalidate Pool.sync_refcounts
  rw [syncLoop_eq_specFold p.queue p.entries hok]

/-- C4 witness: a queue `[New 0, Drop 0, Drop 0]` against a single entry of
count 1 drains to count 0 and clears the item, leaving the queue empty. -/
theorem C4_sync_drains_fifo_witness :
    Pool.sync_refcounts_and_invalidate (T := Nat)
        { entries := [{ data := some 5, gen := 1, ref_count := 1 }],
          queue := [Message.new 0, Message.drop 0, Message.drop 0] } =
      some { entries := [{ data := none, gen := 1, ref_count := 0 }], queue := [] } :=
  (C4_sync_drains_fifo
      { entries := [{ data := some 5, gen := 1, ref_count := 1 }],
        queue := [Message.new 0, Message.drop 0, Message.drop 0] }
      (by decide)).trans (by decide)

end ToyPool
